import Mathlib

/-!
Verification development for the turbo remote code execution service.

The Rust sources are shallowly embedded: pure computations become Lean
functions, and the effectful parts (filesystem, cgroups, child processes)
become explicit outcome parameters threaded through the embedded control
flow.  Strings are Lean `String`s (sequences of Unicode scalar values,
matching Rust `String`); byte buffers are `List Nat` with every element
below 256.
-/

/-! ### Character and string utilities (Rust `str` operations) -/

/-- Unicode White_Space test, as used by Rust `char::is_whitespace`. -/
def isRustWs (c : Char) : Bool :=
  let n := c.toNat
  (9 ≤ n && n ≤ 13) || n = 32 || n = 133 || n = 160 || n = 0x1680 ||
  (0x2000 ≤ n && n ≤ 0x200A) || n = 0x2028 || n = 0x2029 || n = 0x202F ||
  n = 0x205F || n = 0x3000

/-- Rust `str::trim`: drop leading and trailing whitespace. -/
def rustTrim (s : String) : String :=
  String.mk (((s.data.dropWhile isRustWs).reverse.dropWhile isRustWs).reverse)

/-- ASCII digit test (Rust `char::is_ascii_digit`). -/
def isAsciiDigit (c : Char) : Bool := 48 ≤ c.toNat && c.toNat ≤ 57

/-- Numeric value of an ASCII digit. -/
def digitVal (c : Char) : Nat := c.toNat - 48

/-- Accumulating decimal value of a digit string (most significant first). -/
def natValAux : List Char → Nat → Nat
  | [], acc => acc
  | c :: cs, acc => natValAux cs (10 * acc + digitVal c)

/-- Rust `str::parse::<u64>`: an optional leading plus sign, then one or
more ASCII digits, rejecting values that overflow 64 bits. -/
def parseU64 (s : String) : Option Nat :=
  let cs := match s.data with
    | '+' :: rest => rest
    | cs => cs
  if cs.isEmpty || !cs.all isAsciiDigit then none
  else
    let n := natValAux cs 0
    if n < 18446744073709551616 then some n else none

/-- Split a char list at the first occurrence of `'='`
(Rust `str::splitn(2, '=')` as used by the sandbox). -/
def splitFirstEq : List Char → Option (List Char × List Char)
  | [] => none
  | c :: rest =>
    if c = '=' then some ([], rest)
    else match splitFirstEq rest with
      | some (a, b) => some (c :: a, b)
      | none => none

/-- Rust `str::starts_with` for string prefixes. -/
def strStartsWith (s pre : String) : Bool := pre.data.isPrefixOf s.data

/-- Split a char list on a separator character, keeping empty segments
(Rust `str::split('\n')` shape). -/
def splitOnChar (sep : Char) : List Char → List (List Char)
  | [] => [[]]
  | c :: rest =>
    let r := splitOnChar sep rest
    if c = sep then [] :: r
    else match r with
      | seg :: segs => (c :: seg) :: segs
      | [] => [[c]]

/-- Rust `str::lines`: split on `'\n'`, strip one trailing `'\r'` per line,
and do not yield a final empty line for a trailing newline. -/
def rustLines (s : String) : List String :=
  let parts := splitOnChar '\n' s.data
  let parts := match parts.getLast? with
    | some [] => parts.dropLast
    | _ => parts
  parts.map (fun l => String.mk (if l.getLast? = some '\r' then l.dropLast else l))

/-- Rust `str::split_whitespace`: maximal runs of non-whitespace characters. -/
def splitWsAux : List Char → List Char → List String
  | [], acc => if acc.isEmpty then [] else [String.mk acc.reverse]
  | c :: rest, acc =>
    if isRustWs c then
      if acc.isEmpty then splitWsAux rest [] else String.mk acc.reverse :: splitWsAux rest []
    else splitWsAux rest (c :: acc)

/-- Rust `str::split_whitespace` on a string. -/
def splitWs (s : String) : List String := splitWsAux s.data []

/-! ### Semver versions (the `semver` crate as used by turbo-pkg)

`semver::Version` is embedded in full: a numeric `major.minor.patch`
triple plus the optional pre-release and build-metadata strings (kept
verbatim, as the crate does), with the crate's parser validation and its
`Ord` implementation (pre-release precedence rules, build metadata as the
final tiebreaker). -/

/-- Validity of one numeric semver component: nonempty, all ASCII digits,
no leading zero, fits in 64 bits. -/
def semverNumValid (cs : List Char) : Bool :=
  !cs.isEmpty && cs.all isAsciiDigit && (cs.length == 1 || !(cs.head? == some '0')) &&
    natValAux cs 0 < 18446744073709551616

/-- Characters allowed in pre-release and build identifiers:
ASCII alphanumerics and hyphen. -/
def isIdentChar (c : Char) : Bool :=
  isAsciiDigit c || (65 ≤ c.toNat && c.toNat ≤ 90) || (97 ≤ c.toNat && c.toNat ≤ 122) || c = '-'

/-- Validity of one pre-release identifier: nonempty, identifier
characters only, and no leading zero when fully numeric. -/
def preIdentValid (cs : List Char) : Bool :=
  !cs.isEmpty && cs.all isIdentChar &&
    (!(cs.all isAsciiDigit) || cs.length == 1 || !(cs.head? == some '0'))

/-- Validity of one build-metadata identifier: nonempty, identifier
characters only (leading zeros allowed). -/
def buildIdentValid (cs : List Char) : Bool :=
  !cs.isEmpty && cs.all isIdentChar

/-- Validity of a whole pre-release section: every dot-separated
identifier valid (an empty section therefore fails). -/
def preValid (cs : List Char) : Bool := (splitOnChar '.' cs).all preIdentValid

/-- Validity of a whole build-metadata section. -/
def buildValid (cs : List Char) : Bool := (splitOnChar '.' cs).all buildIdentValid

/-- `semver::Version`: numeric triple plus the pre-release and build
strings, stored verbatim as in the crate. -/
structure SemVerM where
  major : Nat
  minor : Nat
  patch : Nat
  pre : String
  build : String
deriving DecidableEq, Repr

/-- Parse the optional `-pre` and `+build` suffix after the patch number:
nothing, `-pre`, `-pre+build`, or `+build`, with each section validated;
anything else is a parse error. -/
def parseSuffix : List Char → Option (List Char × List Char)
  | [] => some ([], [])
  | c :: rest =>
    if c = '-' then
      let pre := rest.takeWhile (fun x => !(x == '+'))
      match rest.dropWhile (fun x => !(x == '+')) with
      | [] => if preValid pre then some (pre, []) else none
      | _ :: b => if preValid pre && buildValid b then some (pre, b) else none
    else if c = '+' then
      if buildValid rest then some ([], rest) else none
    else none

/-- `semver::Version::parse` on characters: `major.minor.patch` numeric
components (no leading zeros, 64-bit), then the optional pre-release and
build-metadata suffix. -/
def parseSemverChars (cs : List Char) : Option SemVerM :=
  let d1 := cs.takeWhile isAsciiDigit
  match cs.dropWhile isAsciiDigit with
  | '.' :: r1 =>
    let d2 := r1.takeWhile isAsciiDigit
    match r1.dropWhile isAsciiDigit with
    | '.' :: r2 =>
      let d3 := r2.takeWhile isAsciiDigit
      if semverNumValid d1 && semverNumValid d2 && semverNumValid d3 then
        match parseSuffix (r2.dropWhile isAsciiDigit) with
        | some (pre, build) =>
          some { major := natValAux d1 0, minor := natValAux d2 0, patch := natValAux d3 0,
                 pre := String.mk pre, build := String.mk build }
        | none => none
      else none
    | _ => none
  | _ => none

/-- `semver::Version::parse`. -/
def parseSemver (s : String) : Option SemVerM := parseSemverChars s.data

/-- Fuelled decimal-digit loop; each step divides by ten, so fuel equal
to the number itself suffices. -/
def natDigitsRevF : Nat → Nat → List Char
  | 0, _ => []
  | _ + 1, 0 => []
  | fuel + 1, n + 1 => Nat.digitChar ((n + 1) % 10) :: natDigitsRevF fuel ((n + 1) / 10)

/-- Decimal digits of a positive natural, least significant first. -/
def natDigitsRev (n : Nat) : List Char := natDigitsRevF n n

/-- Decimal rendering of a natural number (Rust `u64::to_string`). -/
def natReprM (n : Nat) : String :=
  if n = 0 then "0" else String.mk (natDigitsRev n).reverse

/-- `semver::Version::to_string`: the numeric triple, then `-pre` and
`+build` when those sections are nonempty. -/
def verToString (v : SemVerM) : String :=
  natReprM v.major ++ "." ++ natReprM v.minor ++ "." ++ natReprM v.patch ++
    (if v.pre = "" then "" else "-" ++ v.pre) ++
    (if v.build = "" then "" else "+" ++ v.build)

/-- Lexicographic extension of a comparator to lists, the shape of the
identifier loops in the crate's `Ord` impls: a missing right identifier
means greater, a missing left one means less. -/
def listCmpM (cmp : α → α → Ordering) : List α → List α → Ordering
  | [], [] => Ordering.eq
  | [], _ :: _ => Ordering.lt
  | _ :: _, [] => Ordering.gt
  | a :: as, b :: bs => (cmp a b).then (listCmpM cmp as bs)

/-- Character comparison by code point (equal to Rust's byte order on
valid UTF-8). -/
def charCmpM : Char → Char → Ordering := Ordering.byKey Char.toNat compare

/-- Byte-wise comparison of identifier text (`Ord::cmp` on `&[u8]`). -/
def charListCmp : List Char → List Char → Ordering := listCmpM charCmpM

/-- Numeric pre-release identifiers compare by length then bytes
(numeric order, since they carry no leading zeros). -/
def numPreKeyCmp : List Char → List Char → Ordering :=
  compareLex (Ordering.byKey List.length compare) charListCmp

/-- The crate's per-identifier case split, shared by the pre-release and
build orders: numeric identifiers sort below alphanumeric ones; the two
within-class comparators are parameters. -/
def mixedIdentCmp (numCmp strCmp : List Char → List Char → Ordering)
    (a b : List Char) : Ordering :=
  match a.all isAsciiDigit, b.all isAsciiDigit with
  | true, true => numCmp a b
  | true, false => Ordering.lt
  | false, true => Ordering.gt
  | false, false => strCmp a b

/-- One pre-release identifier comparison (`Ord for Prerelease`). -/
def preIdentCmp : List Char → List Char → Ordering :=
  mixedIdentCmp numPreKeyCmp charListCmp

/-- `str::trim_start_matches('0')`. -/
def trimZeros (l : List Char) : List Char := l.dropWhile (fun c => c == '0')

/-- Numeric build identifiers compare by zero-trimmed value, then by raw
length (`0 < 00 < 1 < 01 < 001 < 2`), as in `Ord for BuildMetadata`. -/
def numBuildKeyCmp : List Char → List Char → Ordering :=
  compareLex (Ordering.byKey (fun l => (trimZeros l).length) compare)
    (compareLex (Ordering.byKey trimZeros charListCmp) (Ordering.byKey List.length compare))

/-- One build-metadata identifier comparison (`Ord for BuildMetadata`). -/
def buildIdentCmp : List Char → List Char → Ordering :=
  mixedIdentCmp numBuildKeyCmp charListCmp

/-- Dot-split of a stored section, as the crate's `as_str().split('.')`. -/
def splitDots (s : String) : List (List Char) := splitOnChar '.' s.data

/-- `Ord for Prerelease`: an empty pre-release (a real release) compares
greater than any pre-release; otherwise identifiers compare in sequence. -/
def preCmp (a b : String) : Ordering :=
  match a.isEmpty, b.isEmpty with
  | true, true => Ordering.eq
  | true, false => Ordering.gt
  | false, true => Ordering.lt
  | false, false => listCmpM preIdentCmp (splitDots a) (splitDots b)

/-- `Ord for BuildMetadata`: identifiers compare in sequence. -/
def buildCmp : String → String → Ordering :=
  Ordering.byKey splitDots (listCmpM buildIdentCmp)

/-- `Ord for Version`: major, minor, patch, pre-release precedence, and
build metadata as the final tiebreaker, in that order. -/
def semverCmp : SemVerM → SemVerM → Ordering :=
  compareLex (Ordering.byKey SemVerM.major compare)
    (compareLex (Ordering.byKey SemVerM.minor compare)
      (compareLex (Ordering.byKey SemVerM.patch compare)
        (compareLex (Ordering.byKey SemVerM.pre preCmp)
          (Ordering.byKey SemVerM.build buildCmp))))

/-- The version order as a relation (`cmp != Greater`). -/
def semverLeP (a b : SemVerM) : Prop := semverCmp a b ≠ Ordering.gt

instance : DecidableRel semverLeP := fun a b => inferInstanceAs (Decidable (_ ≠ _))

/-! ### UTF-8 encoding and lossy decoding (Rust `str::as_bytes`,
`String::from_utf8_lossy`) -/

/-- UTF-8 encoding of one Unicode scalar value. -/
def charUtf8 (c : Char) : List Nat :=
  let n := c.toNat
  if n < 0x80 then [n]
  else if n < 0x800 then [0xC0 + n / 64, 0x80 + n % 64]
  else if n < 0x10000 then [0xE0 + n / 4096, 0x80 + (n / 64) % 64, 0x80 + n % 64]
  else [0xF0 + n / 262144, 0x80 + (n / 4096) % 64, 0x80 + (n / 64) % 64, 0x80 + n % 64]

/-- Rust `str::as_bytes`: UTF-8 bytes of a string. -/
def strBytes (s : String) : List Nat := s.data.flatMap charUtf8

/-- The Unicode replacement character. -/
def replChar : Char := Char.ofNat 0xFFFD

/-- UTF-8 continuation byte test. -/
def isCont (b : Nat) : Bool := 128 ≤ b && b ≤ 191

/-- Decode one scalar from the head of a byte sequence, returning the
character and the number of bytes consumed (at least one); invalid
sequences yield the replacement character for their maximal subpart,
following the policy of `String::from_utf8_lossy`. -/
def utf8Step : List Nat → Char × Nat
  | [] => (replChar, 1)
  | b :: rest =>
    if b < 128 then (Char.ofNat b, 1)
    else if b < 194 then (replChar, 1)
    else if b ≤ 223 then
      match rest with
      | b2 :: _ => if isCont b2 then (Char.ofNat ((b - 192) * 64 + (b2 - 128)), 2) else (replChar, 1)
      | [] => (replChar, 1)
    else if b ≤ 239 then
      match rest with
      | b2 :: rest2 =>
        let okB2 := if b = 224 then 160 ≤ b2 && b2 ≤ 191
          else if b = 237 then 128 ≤ b2 && b2 ≤ 159
          else isCont b2
        if okB2 then
          match rest2 with
          | b3 :: _ =>
            if isCont b3 then (Char.ofNat ((b - 224) * 4096 + (b2 - 128) * 64 + (b3 - 128)), 3)
            else (replChar, 2)
          | [] => (replChar, 2)
        else (replChar, 1)
      | [] => (replChar, 1)
    else if b ≤ 244 then
      match rest with
      | b2 :: rest2 =>
        let okB2 := if b = 240 then 144 ≤ b2 && b2 ≤ 191
          else if b = 244 then 128 ≤ b2 && b2 ≤ 143
          else isCont b2
        if okB2 then
          match rest2 with
          | b3 :: rest3 =>
            if isCont b3 then
              match rest3 with
              | b4 :: _ =>
                if isCont b4 then
                  (Char.ofNat ((b - 240) * 262144 + (b2 - 128) * 4096 + (b3 - 128) * 64 + (b4 - 128)), 4)
                else (replChar, 3)
              | [] => (replChar, 3)
            else (replChar, 2)
          | [] => (replChar, 2)
        else (replChar, 1)
      | [] => (replChar, 1)
    else (replChar, 1)

/-- Fuelled lossy decoding loop; each produced character consumes at least
one input byte, so fuel equal to the byte count suffices. -/
def utf8LossyAux : Nat → List Nat → List Char
  | 0, _ => []
  | _ + 1, [] => []
  | fuel + 1, b :: rest =>
    let s := utf8Step (b :: rest)
    s.1 :: utf8LossyAux fuel ((b :: rest).drop (max 1 s.2))

/-- Rust `String::from_utf8_lossy` (always producing an owned string). -/
def utf8Lossy (bs : List Nat) : String := String.mk (utf8LossyAux bs.length bs)

/-! ### SHA-256 (the `sha2` crate) and hex encoding (the `hex` crate) -/

/-- Truncation to 32 bits. -/
def w32 (n : Nat) : Nat := n % 4294967296

/-- 32-bit modular addition. -/
def add32 (a b : Nat) : Nat := (a + b) % 4294967296

/-- 32-bit right rotation. -/
def rotr32 (n x : Nat) : Nat := ((x >>> n) ||| (x <<< (32 - n))) % 4294967296

/-- SHA-256 choice function. -/
def shaCh (x y z : Nat) : Nat := (x &&& y) ^^^ ((x ^^^ 0xFFFFFFFF) &&& z)

/-- SHA-256 majority function. -/
def shaMaj (x y z : Nat) : Nat := (x &&& y) ^^^ (x &&& z) ^^^ (y &&& z)

/-- SHA-256 big sigma 0. -/
def shaUpS0 (x : Nat) : Nat := rotr32 2 x ^^^ rotr32 13 x ^^^ rotr32 22 x

/-- SHA-256 big sigma 1. -/
def shaUpS1 (x : Nat) : Nat := rotr32 6 x ^^^ rotr32 11 x ^^^ rotr32 25 x

/-- SHA-256 small sigma 0. -/
def shaLoS0 (x : Nat) : Nat := rotr32 7 x ^^^ rotr32 18 x ^^^ (x >>> 3)

/-- SHA-256 small sigma 1. -/
def shaLoS1 (x : Nat) : Nat := rotr32 17 x ^^^ rotr32 19 x ^^^ (x >>> 10)

/-- SHA-256 round constants (FIPS 180-4, in decimal). -/
def shaK : List Nat :=
  [1116352408, 1899447441, 3049323471, 3921009573,
   961987163, 1508970993, 2453635748, 2870763221,
   3624381080, 310598401, 607225278, 1426881987,
   1925078388, 2162078206, 2614888103, 3248222580,
   3835390401, 4022224774, 264347078, 604807628,
   770255983, 1249150122, 1555081692, 1996064986,
   2554220882, 2821834349, 2952996808, 3210313671,
   3336571891, 3584528711, 113926993, 338241895,
   666307205, 773529912, 1294757372, 1396182291,
   1695183700, 1986661051, 2177026350, 2456956037,
   2730485921, 2820302411, 3259730800, 3345764771,
   3516065817, 3600352804, 4094571909, 275423344,
   430227734, 506948616, 659060556, 883997877,
   958139571, 1322822218, 1537002063, 1747873779,
   1955562222, 2024104815, 2227730452, 2361852424,
   2428436474, 2756734187, 3204031479, 3329325298]

/-- SHA-256 initial hash state (FIPS 180-4, in decimal). -/
def shaH0 : List Nat :=
  [1779033703, 3144134277, 1013904242, 2773480762,
   1359893119, 2600822924, 528734635, 1541459225]

/-- Big-endian 64-bit byte rendering. -/
def be64 (n : Nat) : List Nat :=
  [(n >>> 56) % 256, (n >>> 48) % 256, (n >>> 40) % 256, (n >>> 32) % 256,
   (n >>> 24) % 256, (n >>> 16) % 256, (n >>> 8) % 256, n % 256]

/-- SHA-256 message padding. -/
def shaPad (msg : List Nat) : List Nat :=
  let padZeros := (64 - (msg.length + 9) % 64) % 64
  msg ++ 0x80 :: List.replicate padZeros 0 ++ be64 (8 * msg.length)

/-- Pack big-endian bytes into 32-bit words, four at a time. -/
def toWords : List Nat → List Nat
  | a :: b :: c :: d :: rest => (a * 16777216 + b * 65536 + c * 256 + d) :: toWords rest
  | _ => []

/-- Extend a 16-word block to the 64-word message schedule. -/
def schedAux : List Nat → Nat → List Nat
  | w, 0 => w
  | w, k + 1 =>
    let i := w.length
    let nw := add32 (add32 (shaLoS1 (w.getD (i - 2) 0)) (w.getD (i - 7) 0))
      (add32 (shaLoS0 (w.getD (i - 15) 0)) (w.getD (i - 16) 0))
    schedAux (w ++ [nw]) k

/-- One SHA-256 round on the eight-word working state. -/
def shaRound (st : List Nat) (wk : Nat × Nat) : List Nat :=
  match st with
  | [a, b, c, d, e, f, g, h] =>
    let t1 := add32 h (add32 (shaUpS1 e) (add32 (shaCh e f g) (add32 wk.2 wk.1)))
    let t2 := add32 (shaUpS0 a) (shaMaj a b c)
    [add32 t1 t2, a, b, c, add32 d t1, e, f, g]
  | _ => st

/-- Compress one 16-word block into the hash state. -/
def compressBlock (h : List Nat) (block : List Nat) : List Nat :=
  let w := schedAux block 48
  let st := (w.zip shaK).foldl shaRound h
  List.zipWith add32 h st

/-- Fuelled block loop over the padded message words. -/
def shaBlocksAux : Nat → List Nat → List Nat → List Nat
  | 0, _, h => h
  | _ + 1, [], h => h
  | fuel + 1, ws, h => shaBlocksAux fuel (ws.drop 16) (compressBlock h (ws.take 16))

/-- SHA-256 digest of a byte sequence, as 32 bytes. -/
def sha256 (msg : List Nat) : List Nat :=
  let ws := toWords (shaPad msg)
  let hfin := shaBlocksAux ws.length ws shaH0
  hfin.flatMap (fun w => [(w >>> 24) % 256, (w >>> 16) % 256, (w >>> 8) % 256, w % 256])

/-- Lowercase hex digit. -/
def hexChar (n : Nat) : Char := if n < 10 then Char.ofNat (n + 48) else Char.ofNat (n + 87)

/-- `hex::encode`: lowercase hex rendering of bytes. -/
def hexEncode (bs : List Nat) : String :=
  String.mk (bs.flatMap (fun b => [hexChar (b / 16), hexChar (b % 16)]))

/-! ### Data model (turbo-core `models.rs`) -/

/-- One submitted source file (`FileRequest`). -/
structure FileRequest where
  name : Option String
  content : String
  encoding : Option String
deriving DecidableEq, Repr

/-- One testcase of a batch submission (`Testcase`). -/
structure Testcase where
  id : String
  input : String
  expected_output : Option String
deriving DecidableEq, Repr

/-- The submitted unit of work (`JobRequest`).  The four limit fields are
declared on the Rust struct used by the worker and all request builders. -/
structure JobRequest where
  language : String
  version : Option String
  files : List FileRequest
  testcases : Option (List Testcase)
  args : Option (List String)
  stdin : Option String
  run_timeout : Option Nat
  compile_timeout : Option Nat
  run_memory_limit : Option Nat
  compile_memory_limit : Option Nat
deriving DecidableEq, Repr

/-- A queued job: a fresh id plus the request. -/
structure Job where
  id : String
  request : JobRequest
deriving DecidableEq, Repr

/-- Stage status taxonomy (`StageStatus`). -/
inductive StageStatus where
  | Pending
  | Running
  | Success
  | RuntimeError
  | CompilationError
  | TimeLimitExceeded
  | MemoryLimitExceeded
  | OutputLimitExceeded
deriving DecidableEq, Repr

/-- Result of one execution stage (`StageResult`). -/
structure StageResult where
  status : StageStatus
  stdout : String
  stderr : String
  exit_code : Option Int
  signal : Option String
  memory_usage : Option Nat
  cpu_time : Option Nat
  execution_time : Option Nat
deriving DecidableEq, Repr

/-- Sandbox limits (`ExecutionLimits`). -/
structure ExecutionLimits where
  memory_limit_bytes : Nat
  pid_limit : Nat
  file_limit : Nat
  timeout_ms : Nat
  output_limit_bytes : Nat
  uid : Option Nat
  gid : Option Nat
deriving DecidableEq, Repr

/-- `ExecutionLimits::default()`. -/
def defaultLimits : ExecutionLimits :=
  { memory_limit_bytes := 512 * 1024 * 1024
    pid_limit := 256
    file_limit := 2048
    timeout_ms := 3000
    output_limit_bytes := 1024
    uid := none
    gid := none }

/-- Per-testcase outcome (`TestcaseResult`). -/
structure TestcaseResult where
  id : String
  passed : Bool
  actual_output : String
  run_details : StageResult
deriving DecidableEq, Repr

/-- The published job outcome (`JobResult`). -/
structure JobResult where
  language : String
  version : String
  run : Option StageResult
  compile : Option StageResult
  testcases : Option (List TestcaseResult)
deriving DecidableEq, Repr

/-! ### Package repository (turbo-pkg `repository.rs`)

The filesystem is abstracted to directory listings: a package directory is
a list of `(entry name, is directory)` pairs, and the repository root is a
list of `(name, is directory, child listing)` records.  `resolve` is
embedded up to the chosen version directory; the final
`PackageDefinition::from_path` call only reads `package.yaml` from the
directory already selected. -/

/-- `PackageRepository::find_latest_version`: collect the subdirectories
that parse as semver versions (pre-release and build-metadata suffixes
included), sort, and render the last (greatest). -/
def find_latest_version (entries : List (String × Bool)) : Except String String :=
  let versions := entries.filterMap (fun e => if e.2 then parseSemver e.1 else none)
  if versions.isEmpty then Except.error "No valid versions found for package"
  else
    match (List.insertionSort semverLeP versions).getLast? with
    | some latest => Except.ok (verToString latest)
    | none => Except.error "No versions found"

/-- `PackageRepository::resolve`, embedded up to the chosen version
directory.  `pkgExists` is whether `<root>/<name>` exists, `entries` its
listing; the result is the version directory name handed to
`PackageDefinition::from_path`, or the error raised before that call. -/
def resolve (pkgExists : Bool) (entries : List (String × Bool)) (version : Option String) :
    Except String String :=
  if pkgExists = false then Except.error "Package not found in repository"
  else
    let vres := match version with
      | some v => Except.ok v
      | none => find_latest_version entries
    match vres with
    | Except.error e => Except.error e
    | Except.ok version_str =>
      if entries.any (fun e => e.1 == version_str) then Except.ok version_str
      else Except.error ("Version " ++ version_str ++ " of package not found")

/-- One entry of the repository root listing. -/
structure RootEntry where
  name : String
  isDir : Bool
  children : List (String × Bool)
deriving DecidableEq, Repr

/-- The unsorted `(name, version)` collection phase of `list_all`. -/
def collectPackages (rootEntries : List RootEntry) : List (String × String) :=
  rootEntries.flatMap (fun e =>
    if e.isDir then
      e.children.filterMap (fun c =>
        if c.2 && (parseSemver c.1).isSome then some (e.name, c.1) else none)
    else [])

/-- Lexicographic comparison of char lists; on valid Unicode this agrees
with Rust's byte-wise `str::cmp` (UTF-8 preserves code point order). -/
def charListLtB : List Char → List Char → Bool
  | [], [] => false
  | [], _ :: _ => true
  | _ :: _, [] => false
  | a :: as, b :: bs =>
    if a.toNat < b.toNat then true
    else if b.toNat < a.toNat then false
    else charListLtB as bs

/-- Rust `str` strict lexicographic order. -/
def strLtB (a b : String) : Bool := charListLtB a.data b.data

/-- Sort key used by `list_all`: the parsed version, with the code's
(unreachable) `Version::new(0, 0, 0)` fallback. -/
def verKey (s : String) : SemVerM :=
  (parseSemver s).getD { major := 0, minor := 0, patch := 0, pre := "", build := "" }

/-- The comparator of `list_all` as a relation: name ascending, then
parsed version ascending (this is `cmp(a, b) != Greater`). -/
def pairLe (a b : String × String) : Prop :=
  strLtB a.1 b.1 = true ∨ (a.1 = b.1 ∧ semverLeP (verKey a.2) (verKey b.2))

instance : DecidableRel pairLe := fun a b => by
  unfold pairLe
  infer_instance

/-- `PackageRepository::list_all` over an abstract root listing (`none`
when the root directory does not exist).  Rust's stable `sort_by` is
modelled by insertion sort, which is also stable. -/
def list_all (root : Option (List RootEntry)) : List (String × String) :=
  match root with
  | none => []
  | some rootEntries => List.insertionSort pairLe (collectPackages rootEntries)

/-! ### Sandbox engine (turbo-box `linux.rs`) -/

/-- `LinuxSandbox::prepare_command` env handling: each `KEY=VALUE` entry is
split with `splitn(2, '=')`; a two-part split gives `(key, value)`, any
other split passes the whole entry as the name with an empty value. -/
def splitEnvEntry (s : String) : String × String :=
  match splitFirstEq s.data with
  | some (a, b) => (String.mk a, String.mk b)
  | none => (s, "")

/-- The `(name, value)` pairs handed to `Command::envs`. -/
def envPairs (env : List String) : List (String × String) :=
  env.map splitEnvEntry

/-- Unix `ExitStatus` as observed by `child.wait()`: `code` is the normal
exit code, `signal` the terminating signal (at most one is present). -/
structure ExitStatusM where
  code : Option Int
  signal : Option Int
deriving DecidableEq, Repr

/-- Which arm of the `tokio::select!` in `monitor_child` fired, and with
what: the child's `wait()` finished first (with a status or an I/O error),
or the `sleep(timeout_ms)` timer fired first. -/
inductive ChildWait where
  | exited (st : ExitStatusM)
  | waitErr (msg : String)
  | timedOut
deriving DecidableEq, Repr

/-- `memory.current` accounting: read the file, trim, parse as `u64`,
defaulting to 0 (`unwrap_or(0)`); `memFile` is `none` when the read fails. -/
def readMemCurrent (memFile : Option String) : Nat :=
  ((memFile.bind (fun v => parseU64 (rustTrim v)))).getD 0

/-- `cpu.stat` accounting: find the line starting with `usage_usec`, take
its second whitespace-separated token, parse as `u64`, defaulting to 0. -/
def readCpuUsage (cpuFile : Option String) : Nat :=
  (cpuFile.bind (fun content =>
    ((rustLines content).find? (fun l => strStartsWith l "usage_usec")).bind
      (fun l => ((splitWs l)[1]?).bind parseU64))).getD 0

/-- `LinuxSandbox::monitor_child`: classify the exit, cap both output
streams at `output_limit_bytes` bytes (the reader task's
`take(output_cap)`), decode them lossily, and attach the cgroup
accounting.  `rawOut`/`rawErr` are the bytes the child wrote to its pipes,
`duration` the worker-measured wall clock in milliseconds. -/
def monitor_child (wait : ChildWait) (rawOut rawErr : List Nat)
    (memFile cpuFile : Option String) (duration : Nat) (limits : ExecutionLimits) :
    Except String StageResult :=
  let stdoutS := utf8Lossy (rawOut.take limits.output_limit_bytes)
  let stderrS := utf8Lossy (rawErr.take limits.output_limit_bytes)
  match wait with
  | ChildWait.exited st =>
    let base := if st.code = some 0 then StageStatus.Success else StageStatus.RuntimeError
    let final_status := if st.signal = some 9 then StageStatus.MemoryLimitExceeded else base
    Except.ok
      { status := final_status
        stdout := stdoutS
        stderr := stderrS
        exit_code := st.code
        signal := st.signal.map (fun s => toString s)
        memory_usage := some (readMemCurrent memFile)
        cpu_time := some (readCpuUsage cpuFile)
        execution_time := some duration }
  | ChildWait.waitErr msg => Except.error msg
  | ChildWait.timedOut =>
    Except.ok
      { status := StageStatus.TimeLimitExceeded
        stdout := stdoutS
        stderr := stderrS
        exit_code := none
        signal := some "SIGKILL"
        memory_usage := some (readMemCurrent memFile)
        cpu_time := some (readCpuUsage cpuFile)
        execution_time := some duration }

/-! ### Worker (turbo-server `worker.rs`) -/

/-- `stub_result()`. -/
def stub_result : StageResult :=
  { status := StageStatus.Pending
    stdout := ""
    stderr := ""
    exit_code := none
    signal := none
    memory_usage := none
    cpu_time := none
    execution_time := none }

/-- `fail_job`: the synthetic failing result; note that it carries the raw
request's language and its version defaulted to the empty string. -/
def fail_job (job : Job) (err : String) : JobResult :=
  { language := job.request.language
    version := job.request.version.getD ""
    run := some { stub_result with
      status := StageStatus.RuntimeError
      stdout := ""
      stderr := err }
    compile := none
    testcases := none }

/-- The files the worker writes into the job temp directory (lines 61-66
of `worker.rs`): the name defaulted to `main`, and the content written
verbatim by `fs::write` — the `encoding` field is never consulted. -/
def writtenFiles (req : JobRequest) : List (String × String) :=
  req.files.map (fun f => (f.name.getD "main", f.content))

/-- File comparator of `calculate_job_hash`: `a.name.cmp(&b.name)` on
`Option<String>` (`None` sorts first), as the non-strict `≤`. -/
def fileLe (a b : FileRequest) : Prop :=
  (match a.name, b.name with
    | none, _ => true
    | some _, none => false
    | some x, some y => decide (x ≤ y)) = true

instance : DecidableRel fileLe := fun a b => inferInstanceAs (Decidable (_ = true))

/-- `calculate_job_hash`: SHA-256 over language, version-or-latest, the
compile script text, and the files sorted by name, rendered as lowercase
hex.  Rust's stable `sort_by` is modelled by insertion sort. -/
def calculate_job_hash (req : JobRequest) (compile_script_content : String) : String :=
  let files := List.insertionSort fileLe req.files
  let input :=
    strBytes req.language ++
    strBytes (req.version.getD "latest") ++
    strBytes compile_script_content ++
    files.flatMap (fun f => strBytes (f.name.getD "main") ++ strBytes f.content)
  hexEncode (sha256 input)

/-- Build one `TestcaseResult` from a testcase and the stage result of its
run (lines 227-238 of `worker.rs`): `passed` compares trimmed stdout with
the trimmed expected output and is `true` whenever `expected_output` is
absent — the stage status is not consulted. -/
def mkTestcaseResult (tc : Testcase) (stage_res : StageResult) : TestcaseResult :=
  { id := tc.id
    passed := match tc.expected_output with
      | some expected => rustTrim stage_res.stdout == rustTrim expected
      | none => true
    actual_output := stage_res.stdout
    run_details := stage_res }

/-- Outcomes of the effectful steps of `execute_job`, as a deterministic
oracle: `none` error fields mean the step succeeded, `Except.error` run
fields mean `sandbox.run` itself failed (as opposed to a failing stage). -/
structure WorkerEnv where
  tempDirErr : Option String
  writeErr : Nat → Option String
  runtimeExists : Bool
  pkgDefErr : Option String
  initErr : Option String
  compileScriptExists : Bool
  compileScriptContent : String
  cacheExists : Bool
  cacheRestoreErr : Option String
  compileRun : Except String StageResult
  runScriptExists : Bool
  tcRun : Testcase → Except String StageResult
  singleRun : Except String StageResult

/-- First error of the file-writing loop over `req.files`. -/
def firstWriteErr (n : Nat) (werr : Nat → Option String) : Option String :=
  (List.range n).findSome? werr

/-- `execute_job`, with every effect outcome drawn from the oracle.  The
returned flag records whether `sandbox.cleanup` was invoked before the
result was produced. -/
def execute_job (runtimesDir : String) (job : Job) (env : WorkerEnv) : JobResult × Bool :=
  let req := job.request
  match env.tempDirErr with
  | some e => (fail_job job ("Failed to create temp dir: " ++ e), false)
  | none =>
  match firstWriteErr req.files.length env.writeErr with
  | some e => (fail_job job ("Failed to write file: " ++ e), false)
  | none =>
  let version := req.version.getD "latest"
  let runtimePath := runtimesDir ++ "/" ++ req.language ++ "/" ++ version
  if env.runtimeExists = false then (fail_job job ("Runtime not found at " ++ runtimePath), false)
  else
  match env.pkgDefErr with
  | some e => (fail_job job ("Invalid runtime definition: " ++ e), false)
  | none =>
  match env.initErr with
  | some e => (fail_job job ("Sandbox init failed: " ++ e), false)
  | none =>
  let compileFromCache : Option StageResult :=
    if env.compileScriptExists && env.cacheExists && (env.cacheRestoreErr == none) then
      some { stub_result with
        status := StageStatus.Success
        stdout := "Restored from cache"
        stderr := "" }
    else none
  let afterCompile : Except (JobResult × Bool) (Option StageResult) :=
    if compileFromCache.isNone && env.compileScriptExists then
      match env.compileRun with
      | Except.ok res =>
        if res.status ≠ StageStatus.Success then
          Except.error
            ({ language := req.language
               version := version
               run := none
               compile := some { res with status := StageStatus.CompilationError }
               testcases := none }, true)
        else Except.ok (some res)
      | Except.error e => Except.error (fail_job job ("Compile execution failed: " ++ e), true)
    else Except.ok compileFromCache
  match afterCompile with
  | Except.error r => r
  | Except.ok compile_result =>
  if env.runScriptExists = false then
    (fail_job job ("Run script not found at " ++ runtimePath ++ "/run.sh"), true)
  else
  match req.testcases with
  | some tcs =>
    let testcase_results := tcs.map (fun tc =>
      let stage_res := match env.tcRun tc with
        | Except.ok r => r
        | Except.error e => { stub_result with
            status := StageStatus.RuntimeError
            stdout := ""
            stderr := "Sandbox error: " ++ e }
      mkTestcaseResult tc stage_res)
    ({ language := req.language
       version := version
       compile := compile_result
       run := none
       testcases := if testcase_results.isEmpty then none else some testcase_results }, true)
  | none =>
    ({ language := req.language
       version := version
       compile := compile_result
       run := env.singleRun.toOption
       testcases := none }, true)

/-- A convenient all-succeeding oracle, for concrete instantiations. -/
def envOkBase : WorkerEnv :=
  { tempDirErr := none
    writeErr := fun _ => none
    runtimeExists := true
    pkgDefErr := none
    initErr := none
    compileScriptExists := false
    compileScriptContent := ""
    cacheExists := false
    cacheRestoreErr := none
    compileRun := Except.ok stub_result
    runScriptExists := true
    tcRun := fun _ => Except.ok stub_result
    singleRun := Except.ok stub_result }

/-- An otherwise-empty request, for concrete instantiations. -/
def baseRequest : JobRequest :=
  { language := "python"
    version := none
    files := []
    testcases := none
    args := none
    stdin := none
    run_timeout := none
    compile_timeout := none
    run_memory_limit := none
    compile_memory_limit := none }

/-- Rendering of the spec sentence `sorted by (name asc, version desc)`,
for comparison against what `list_all` actually produces. -/
def specSortedNameAscVerDesc (l : List (String × String)) : Prop :=
  l.Pairwise (fun a b => strLtB a.1 b.1 = true ∨ (a.1 = b.1 ∧ semverLeP (verKey b.2) (verKey a.2)))

instance (l : List (String × String)) : Decidable (specSortedNameAscVerDesc l) := by
  unfold specSortedNameAscVerDesc
  exact List.instDecidablePairwise l

/-- Concrete stage result used in witness instantiations. -/
def srOut42 : StageResult :=
  { stub_result with status := StageStatus.Success, stdout := " 42 " }

/-- Concrete testcase result used in witness instantiations. -/
def trOut42 : TestcaseResult :=
  { id := "t", passed := true, actual_output := " 42 ", run_details := srOut42 }

/-- Strict name order underlying the hash determinism argument:
`None` before `Some`, `Some` compared by the inner string. -/
def optStrLt (x y : Option String) : Prop :=
  match x, y with
  | none, none => False
  | none, some _ => True
  | some _, none => False
  | some a, some b => a < b

/-- Strict order on `(name, content)` projections by name. -/
def pairNameLt (p q : Option String × String) : Prop := optStrLt p.1 q.1

/-! ## Theorems -/

theorem strMk_data (s : String) : String.mk s.data = s := rfl

theorem utf8LossyAux_length_le : ∀ (fuel : Nat) (bs : List Nat),
    (utf8LossyAux fuel bs).length ≤ fuel := by
  intro fuel
  induction fuel with
  | zero => intro bs; simp [utf8LossyAux]
  | succ n ih =>
    intro bs
    cases bs with
    | nil => simp [utf8LossyAux]
    | cons b rest =>
      simp only [utf8LossyAux, List.length_cons]
      exact Nat.succ_le_succ (ih _)

theorem utf8Lossy_length_le (bs : List Nat) : (utf8Lossy bs).length ≤ bs.length := by
  have h := utf8LossyAux_length_le bs.length bs
  simpa [utf8Lossy, String.length] using h

theorem utf8Lossy_nil : utf8Lossy [] = "" := rfl

/-- C5: on the timeout branch of `monitor_child` the stage result always
has status `TimeLimitExceeded`, signal `"SIGKILL"`, and no exit code. -/
theorem timeout_branch_result (rawOut rawErr : List Nat) (memFile cpuFile : Option String)
    (duration : Nat) (limits : ExecutionLimits) :
    ∃ r, monitor_child ChildWait.timedOut rawOut rawErr memFile cpuFile duration limits =
        Except.ok r ∧
      r.status = StageStatus.TimeLimitExceeded ∧ r.signal = some "SIGKILL" ∧ r.exit_code = none := by
  exact ⟨_, rfl, rfl, rfl, rfl⟩

/-- C6: every stage result produced by `monitor_child` has stdout and
stderr of length at most `output_limit_bytes`, and a zero limit forces
both streams to be empty (while a result is still produced). -/
theorem stage_output_capped (wait : ChildWait) (rawOut rawErr : List Nat)
    (memFile cpuFile : Option String) (duration : Nat) (limits : ExecutionLimits)
    (r : StageResult)
    (h : monitor_child wait rawOut rawErr memFile cpuFile duration limits = Except.ok r) :
    r.stdout.length ≤ limits.output_limit_bytes ∧
    r.stderr.length ≤ limits.output_limit_bytes ∧
    (limits.output_limit_bytes = 0 → r.stdout = "" ∧ r.stderr = "") := by
  have hlen : ∀ raw : List Nat,
      (utf8Lossy (raw.take limits.output_limit_bytes)).length ≤ limits.output_limit_bytes := by
    intro raw
    calc (utf8Lossy (raw.take limits.output_limit_bytes)).length
        ≤ (raw.take limits.output_limit_bytes).length := utf8Lossy_length_le _
      _ ≤ limits.output_limit_bytes := List.length_take_le _ _
  have hzero : limits.output_limit_bytes = 0 →
      ∀ raw : List Nat, utf8Lossy (raw.take limits.output_limit_bytes) = "" := by
    intro h0 raw
    simp [h0, utf8Lossy_nil]
  cases wait with
  | exited st =>
    simp only [monitor_child] at h
    cases h
    refine ⟨hlen rawOut, hlen rawErr, fun h0 => ⟨hzero h0 rawOut, hzero h0 rawErr⟩⟩
  | waitErr msg => simp [monitor_child] at h
  | timedOut =>
    simp only [monitor_child] at h
    cases h
    refine ⟨hlen rawOut, hlen rawErr, fun h0 => ⟨hzero h0 rawOut, hzero h0 rawErr⟩⟩

/-- Witness for C6 at a concrete run: a timed-out child that wrote one
byte to stdout under a zero output limit. -/
theorem stage_output_capped_witness :
    ({ status := StageStatus.TimeLimitExceeded
       stdout := ""
       stderr := ""
       exit_code := none
       signal := some "SIGKILL"
       memory_usage := some 0
       cpu_time := some 0
       execution_time := some 7 } : StageResult).stdout.length ≤ 0 ∧
    ({ status := StageStatus.TimeLimitExceeded
       stdout := ""
       stderr := ""
       exit_code := none
       signal := some "SIGKILL"
       memory_usage := some 0
       cpu_time := some 0
       execution_time := some 7 } : StageResult).stderr.length ≤ 0 ∧
    ((0 : Nat) = 0 →
      ({ status := StageStatus.TimeLimitExceeded
         stdout := ""
         stderr := ""
         exit_code := none
         signal := some "SIGKILL"
         memory_usage := some 0
         cpu_time := some 0
         execution_time := some 7 } : StageResult).stdout = "" ∧
      ({ status := StageStatus.TimeLimitExceeded
         stdout := ""
         stderr := ""
         exit_code := none
         signal := some "SIGKILL"
         memory_usage := some 0
         cpu_time := some 0
         execution_time := some 7 } : StageResult).stderr = "") :=
  stage_output_capped ChildWait.timedOut [72] [] none none 7
    { defaultLimits with output_limit_bytes := 0 } _ rfl

theorem splitFirstEq_of_no_eq (cs : List Char) (h : ∀ c ∈ cs, c ≠ '=') :
    splitFirstEq cs = none := by
  induction cs with
  | nil => rfl
  | cons c rest ih =>
    have hc : c ≠ '=' := h c (List.mem_cons_self c rest)
    have hrest : splitFirstEq rest = none := ih (fun x hx => h x (List.mem_cons_of_mem c hx))
    simp [splitFirstEq, hc, hrest]

theorem splitFirstEq_append (xs ys : List Char) (h : ∀ c ∈ xs, c ≠ '=') :
    splitFirstEq (xs ++ '=' :: ys) = some (xs, ys) := by
  induction xs with
  | nil => simp [splitFirstEq]
  | cons c rest ih =>
    have hc : c ≠ '=' := h c (List.mem_cons_self c rest)
    have hrest := ih (fun x hx => h x (List.mem_cons_of_mem c hx))
    simp [splitFirstEq, hc, hrest]

/-- C10: every env entry is split at its first `'='` into the `(name,
value)` pair passed to the child — an entry with no `'='` becomes a
variable named by the whole entry with empty value, and everything after
the first `'='` (further `'='` included) is the value. -/
theorem env_entry_split (entries : List String) (e : String) (he : e ∈ entries) :
    ((∀ c ∈ e.data, c ≠ '=') → (e, "") ∈ envPairs entries) ∧
    (∀ a b : String, e = a ++ "=" ++ b → (∀ c ∈ a.data, c ≠ '=') →
      (a, b) ∈ envPairs entries) := by
  constructor
  · intro hno
    have hsplit : splitEnvEntry e = (e, "") := by
      unfold splitEnvEntry
      rw [splitFirstEq_of_no_eq e.data hno]
    exact hsplit ▸ List.mem_map_of_mem splitEnvEntry he
  · intro a b hab hno
    have hdata : e.data = a.data ++ '=' :: b.data := by
      have h1 : "=".data = ['='] := rfl
      rw [hab, String.data_append, String.data_append, h1, List.append_assoc]
      rfl
    have hsplit : splitEnvEntry e = (a, b) := by
      unfold splitEnvEntry
      rw [hdata, splitFirstEq_append a.data b.data hno]
    exact hsplit ▸ List.mem_map_of_mem splitEnvEntry he

/-- Witness for C10 on a concrete env vector: `PATH=/bin:/usr=x` splits at
the first `'='`, and `TERM` (no `'='`) becomes `(TERM, "")`. -/
theorem env_entry_split_witness :
    ("TERM", "") ∈ envPairs ["PATH=/bin:/usr=x", "TERM"] ∧
    ("PATH", "/bin:/usr=x") ∈ envPairs ["PATH=/bin:/usr=x", "TERM"] := by
  constructor
  · exact (env_entry_split ["PATH=/bin:/usr=x", "TERM"] "TERM" (by decide)).1 (by decide)
  · exact (env_entry_split ["PATH=/bin:/usr=x", "TERM"] "PATH=/bin:/usr=x" (by decide)).2
      "PATH" "/bin:/usr=x" (by decide) (by decide)

/-- C2 (code bug): the worker writes the submitted content verbatim; a
file declared as base64 reaches the temp directory undecoded (decoding
`"aGVsbG8="` would have produced `"hello"`). -/
theorem encoding_ignored_at_failing_input :
    writtenFiles { baseRequest with
      files := [{ name := some "main", content := "aGVsbG8=", encoding := some "base64" }] } =
      [("main", "aGVsbG8=")] ∧ "aGVsbG8=" ≠ "hello" := by
  constructor
  · rfl
  · decide

theorem zip_self_map {α β : Type} (l : List α) (g : α → β) :
    l.zip (l.map g) = l.map (fun a => (a, g a)) := by
  induction l with
  | nil => rfl
  | cons a t ih => simp [ih]

theorem mk_passed_iff (tc : Testcase) (sr : StageResult) :
    ((mkTestcaseResult tc sr).passed = true ↔ (tc.expected_output = none ∨
      rustTrim (mkTestcaseResult tc sr).actual_output = rustTrim (tc.expected_output.getD ""))) := by
  cases hexp : tc.expected_output with
  | none => simp [mkTestcaseResult, hexp]
  | some e => simp [mkTestcaseResult, hexp]

/-- C1 counterexample: a batch job whose only testcase has no expected
output and whose run ends in `RuntimeError` still comes back
`passed = true`, so `passed` does not require `status == Success`. -/
theorem testcase_passed_ignores_status_cex :
    (execute_job "/rt"
        { id := "j1", request := { baseRequest with
            testcases := some [{ id := "t1", input := "", expected_output := none }] } }
        { envOkBase with tcRun := fun _ => Except.ok { stub_result with
            status := StageStatus.RuntimeError, stderr := "boom" } }).1.testcases =
      some [{ id := "t1", passed := true, actual_output := "",
              run_details := { stub_result with
                status := StageStatus.RuntimeError, stderr := "boom" } }] ∧
    StageStatus.RuntimeError ≠ StageStatus.Success := by
  constructor
  · rfl
  · decide

theorem batch_tail_mem (tcs : List Testcase) (f : Testcase → TestcaseResult)
    (p : Testcase × TestcaseResult)
    (hp : p ∈ tcs.zip
      (((if (tcs.map f).isEmpty then none else some (tcs.map f)) :
        Option (List TestcaseResult)).getD [])) :
    p.2 = f p.1 := by
  by_cases he : (tcs.map f).isEmpty
  · simp [he] at hp
  · simp only [he, if_neg, Bool.false_eq_true, not_false_eq_true, Option.getD_some] at hp
    rw [zip_self_map] at hp
    rcases List.mem_map.mp hp with ⟨tc, _, hpa⟩
    rw [← hpa]

/-- C1 (amended): every testcase result the worker produces satisfies
`passed = true` exactly when the testcase's expected output is absent or
the trimmed actual output equals the trimmed expected output; the stage
status is not part of the condition. -/
theorem testcase_passed_iff_trim_eq (runtimesDir : String) (job : Job) (env : WorkerEnv)
    (tcs : List Testcase) (h : job.request.testcases = some tcs) :
    ∀ p ∈ tcs.zip (((execute_job runtimesDir job env).1.testcases).getD []),
      (p.2.passed = true ↔ (p.1.expected_output = none ∨
        rustTrim p.2.actual_output = rustTrim (p.1.expected_output.getD ""))) := by
  intro p hp
  cases h1 : env.tempDirErr with
  | some e => simp only [execute_job, h1] at hp; simp [fail_job] at hp
  | none =>
  cases h2 : firstWriteErr job.request.files.length env.writeErr with
  | some e => simp only [execute_job, h1, h2] at hp; simp [fail_job] at hp
  | none =>
  cases h3 : env.runtimeExists with
  | false => simp only [execute_job, h1, h2, h3] at hp; simp [fail_job] at hp
  | true =>
  cases h4 : env.pkgDefErr with
  | some e => simp only [execute_job, h1, h2, h3, h4] at hp; simp [fail_job] at hp
  | none =>
  cases h5 : env.initErr with
  | some e => simp only [execute_job, h1, h2, h3, h4, h5] at hp; simp [fail_job] at hp
  | none =>
  cases h7 : env.runScriptExists with
  | false =>
    simp only [execute_job, h1, h2, h3, h4, h5, h7] at hp
    rcases hca : (env.compileScriptExists && env.cacheExists && (env.cacheRestoreErr == none)) with _ | _ <;>
      rw [hca] at hp <;> simp only [Bool.false_eq_true, if_false, if_true] at hp
    · rcases hcs : env.compileScriptExists with _ | _ <;> rw [hcs] at hp
      · simp [fail_job] at hp
      · cases h8 : env.compileRun with
        | ok res =>
          rw [h8] at hp
          by_cases h9 : res.status = StageStatus.Success
          · simp [h9, fail_job] at hp
          · simp [h9] at hp
        | error e => rw [h8] at hp; simp [fail_job] at hp
    · simp [fail_job] at hp
  | true =>
  simp only [execute_job, h1, h2, h3, h4, h5, h7, h] at hp
  rcases hca : (env.compileScriptExists && env.cacheExists && (env.cacheRestoreErr == none)) with _ | _ <;>
    rw [hca] at hp <;> simp only [Bool.false_eq_true, if_false, if_true] at hp
  · rcases hcs : env.compileScriptExists with _ | _ <;> rw [hcs] at hp
    · simp only [Option.isNone_none, Bool.true_and, Bool.and_false, Bool.false_eq_true,
        if_false] at hp
      have h2p := batch_tail_mem tcs _ p hp
      rw [h2p]
      exact mk_passed_iff p.1 _
    · cases h8 : env.compileRun with
      | ok res =>
        rw [h8] at hp
        by_cases h9 : res.status = StageStatus.Success
        · simp only [h9, ne_eq, not_true_eq_false, if_false, Option.isNone_none,
            Bool.true_and, if_true] at hp
          have h2p := batch_tail_mem tcs _ p hp
          rw [h2p]
          exact mk_passed_iff p.1 _
        · simp [h9] at hp
      | error e => rw [h8] at hp; simp [fail_job] at hp
  · have h2p := batch_tail_mem tcs _ p hp
    rw [h2p]
    exact mk_passed_iff p.1 _

/-- Witness for C1 (amended) on a concrete batch job: expected `"42"`,
actual `" 42 "`, which passes by trimmed comparison. -/
theorem testcase_passed_iff_trim_eq_witness :
    (trOut42.passed = true ↔
      ((some "42" : Option String) = none ∨
        rustTrim trOut42.actual_output = rustTrim ((some "42" : Option String).getD ""))) :=
  testcase_passed_iff_trim_eq "/rt"
    { id := "j2", request := { baseRequest with
        testcases := some [{ id := "t", input := "", expected_output := some "42" }] } }
    { envOkBase with tcRun := fun _ => Except.ok srOut42 }
    [{ id := "t", input := "", expected_output := some "42" }] rfl
    ({ id := "t", input := "", expected_output := some "42" }, trOut42)
    (by decide)

/-- C8: when the compile stage runs and exits with a non-`Success` status,
the worker rewrites it to `CompilationError`, cleans up the sandbox (the
returned flag), and returns immediately with `run` and `testcases` null. -/
theorem compile_failure_short_circuits (runtimesDir : String) (job : Job) (env : WorkerEnv)
    (res : StageResult)
    (h1 : env.tempDirErr = none)
    (h2 : firstWriteErr job.request.files.length env.writeErr = none)
    (h3 : env.runtimeExists = true)
    (h4 : env.pkgDefErr = none)
    (h5 : env.initErr = none)
    (h6 : env.compileScriptExists = true)
    (h7 : env.cacheExists = false ∨ env.cacheRestoreErr ≠ none)
    (h8 : env.compileRun = Except.ok res)
    (h9 : res.status ≠ StageStatus.Success) :
    execute_job runtimesDir job env =
      ({ language := job.request.language
         version := job.request.version.getD "latest"
         run := none
         compile := some { res with status := StageStatus.CompilationError }
         testcases := none }, true) := by
  have hca : (env.compileScriptExists && env.cacheExists && (env.cacheRestoreErr == none)) = false := by
    rcases h7 with h7 | h7
    · rw [h7]
      simp
    · have hcr : (env.cacheRestoreErr == none) = false := by
        cases hc : env.cacheRestoreErr with
        | none => exact absurd hc h7
        | some e => rfl
      rw [hcr]
      simp
  simp only [execute_job, h1, h2, h3, h4, h5]
  rw [hca]
  simp only [Bool.false_eq_true, if_false, Option.isNone_none, h6, Bool.and_true, Bool.true_and,
    if_true, h8]
  rw [if_pos h9]
  simp [h3]

/-- Witness for C8 on a concrete failing compile. -/
theorem compile_failure_short_circuits_witness :
    execute_job "/rt" { id := "j3", request := baseRequest }
      { envOkBase with
        compileScriptExists := true
        compileRun := Except.ok { stub_result with
          status := StageStatus.RuntimeError, stderr := "syntax error" } } =
      ({ language := "python"
         version := "latest"
         run := none
         compile := some { stub_result with
           status := StageStatus.CompilationError, stderr := "syntax error" }
         testcases := none }, true) :=
  compile_failure_short_circuits "/rt" { id := "j3", request := baseRequest }
    { envOkBase with
      compileScriptExists := true
      compileRun := Except.ok { stub_result with
        status := StageStatus.RuntimeError, stderr := "syntax error" } }
    { stub_result with status := StageStatus.RuntimeError, stderr := "syntax error" }
    rfl rfl rfl rfl rfl rfl (Or.inl rfl) rfl (by decide)

/-- C3 counterexample: a successful single run of a request with no
version yields a populated `JobResult` whose version is the literal string
`"latest"` — not a concrete semver directory, since the worker never
resolves `latest` to one. -/
theorem jobresult_version_not_resolved_cex :
    (execute_job "/rt" { id := "j4", request := baseRequest } envOkBase).1.version = "latest" ∧
    parseSemver "latest" = none := by
  constructor
  · rfl
  · rfl

/-- C3 (amended): every `JobResult` the worker emits carries the raw
request's language, and its version is the raw request's version defaulted
to `"latest"` (the literal runtime directory component) on worker paths,
or defaulted to `""` in the synthetic `fail_job` results. -/
theorem jobresult_language_version_raw (runtimesDir : String) (job : Job) (env : WorkerEnv) :
    (execute_job runtimesDir job env).1.language = job.request.language ∧
    ((execute_job runtimesDir job env).1.version = job.request.version.getD "latest" ∨
     (execute_job runtimesDir job env).1.version = job.request.version.getD "") := by
  unfold execute_job
  repeat' split
  all_goals simp_all [fail_job]
  all_goals try (cases firstWriteErr job.request.files.length env.writeErr <;> simp)
  all_goals try (cases job.request.testcases <;> simp)
  all_goals try (cases env.compileScriptExists <;> simp_all)

instance : IsTotal FileRequest fileLe where
  total a b := by
    unfold fileLe
    cases a.name with
    | none => left; rfl
    | some x => cases b.name with
      | none => right; rfl
      | some y =>
        rcases le_total x y with h | h
        · left; simpa using h
        · right; simpa using h

instance : IsTrans FileRequest fileLe where
  trans a b c hab hbc := by
    unfold fileLe at *
    cases ha : a.name with
    | none => rfl
    | some x =>
      rw [ha] at hab
      cases hb : b.name with
      | none => rw [hb] at hab; simp at hab
      | some y =>
        rw [hb] at hab hbc
        cases hc : c.name with
        | none => rw [hc] at hbc; simp at hbc
        | some z =>
          rw [hc] at hbc
          simp only [decide_eq_true_eq] at hab hbc ⊢
          exact le_trans hab hbc

theorem optStrLt_of_fileLe_ne (a b : FileRequest) (hle : fileLe a b)
    (hne : a.name ≠ b.name) : optStrLt a.name b.name := by
  unfold fileLe at hle
  unfold optStrLt
  cases ha : a.name with
  | none => cases hb : b.name with
    | none => exact hne (ha.trans hb.symm)
    | some y => trivial
  | some x =>
    rw [ha] at hle
    cases hb : b.name with
    | none => rw [hb] at hle; simp at hle
    | some y =>
      rw [hb] at hle
      simp only [decide_eq_true_eq] at hle
      refine lt_of_le_of_ne hle (fun h => hne ?_)
      rw [ha, hb, h]

instance : IsAntisymm (Option String × String) pairNameLt where
  antisymm a b hab hba := by
    exfalso
    unfold pairNameLt optStrLt at hab hba
    cases ha : a.1 with
    | none => cases hb : b.1 with
      | none => rw [ha, hb] at hab; exact hab
      | some y => rw [ha, hb] at hba; exact hba
    | some x => cases hb : b.1 with
      | none => rw [ha, hb] at hab; exact hab
      | some y =>
        rw [ha, hb] at hab hba
        exact lt_asymm hab hba

/-- C9: the cache key is deterministic — two requests with the same
language, version-or-latest, compile script contents, and the same
multiset of `(name, content)` files (in any order, names pairwise
distinct) hash to the identical hex SHA-256 key. -/
theorem cache_key_deterministic (r1 r2 : JobRequest) (script : String)
    (hlang : r1.language = r2.language)
    (hver : r1.version.getD "latest" = r2.version.getD "latest")
    (hfiles : (r1.files.map (fun f => (f.name, f.content))).Perm
      (r2.files.map (fun f => (f.name, f.content))))
    (hnodup : (r1.files.map (fun f => f.name)).Nodup) :
    calculate_job_hash r1 script = calculate_job_hash r2 script := by
  have hp1 : (List.insertionSort fileLe r1.files).Perm r1.files :=
    List.perm_insertionSort _ _
  have hp2 : (List.insertionSort fileLe r2.files).Perm r2.files :=
    List.perm_insertionSort _ _
  have hs1 : List.Sorted fileLe (List.insertionSort fileLe r1.files) :=
    List.sorted_insertionSort _ _
  have hs2 : List.Sorted fileLe (List.insertionSort fileLe r2.files) :=
    List.sorted_insertionSort _ _
  have hnodup2 : (r2.files.map (fun f => f.name)).Nodup := by
    have h := hfiles.map Prod.fst
    rw [List.map_map, List.map_map] at h
    exact (h.nodup_iff).mp hnodup
  have hnames1 : ((List.insertionSort fileLe r1.files).map (fun f => f.name)).Nodup :=
    ((hp1.map (fun f => f.name)).nodup_iff).mpr hnodup
  have hnames2 : ((List.insertionSort fileLe r2.files).map (fun f => f.name)).Nodup :=
    ((hp2.map (fun f => f.name)).nodup_iff).mpr hnodup2
  have hstrict1 : List.Pairwise pairNameLt
      ((List.insertionSort fileLe r1.files).map (fun f => (f.name, f.content))) := by
    rw [List.pairwise_map]
    have hne : List.Pairwise (fun a b : FileRequest => a.name ≠ b.name)
        (List.insertionSort fileLe r1.files) := List.pairwise_map.mp hnames1
    exact (hs1.and hne).imp (fun h => optStrLt_of_fileLe_ne _ _ h.1 h.2)
  have hstrict2 : List.Pairwise pairNameLt
      ((List.insertionSort fileLe r2.files).map (fun f => (f.name, f.content))) := by
    rw [List.pairwise_map]
    have hne : List.Pairwise (fun a b : FileRequest => a.name ≠ b.name)
        (List.insertionSort fileLe r2.files) := List.pairwise_map.mp hnames2
    exact (hs2.and hne).imp (fun h => optStrLt_of_fileLe_ne _ _ h.1 h.2)
  have hpermmap :
      ((List.insertionSort fileLe r1.files).map (fun f => (f.name, f.content))).Perm
        ((List.insertionSort fileLe r2.files).map (fun f => (f.name, f.content))) :=
    ((hp1.map _).trans hfiles).trans (hp2.map _).symm
  have heqmap : (List.insertionSort fileLe r1.files).map (fun f => (f.name, f.content)) =
      (List.insertionSort fileLe r2.files).map (fun f => (f.name, f.content)) :=
    List.eq_of_perm_of_sorted hpermmap hstrict1 hstrict2
  have hflat : (List.insertionSort fileLe r1.files).flatMap
        (fun f => strBytes (f.name.getD "main") ++ strBytes f.content) =
      (List.insertionSort fileLe r2.files).flatMap
        (fun f => strBytes (f.name.getD "main") ++ strBytes f.content) := by
    have h1 := List.flatMap_map (fun f : FileRequest => (f.name, f.content))
      (fun p : Option String × String => strBytes (p.1.getD "main") ++ strBytes p.2)
      (List.insertionSort fileLe r1.files)
    have h2 := List.flatMap_map (fun f : FileRequest => (f.name, f.content))
      (fun p : Option String × String => strBytes (p.1.getD "main") ++ strBytes p.2)
      (List.insertionSort fileLe r2.files)
    calc (List.insertionSort fileLe r1.files).flatMap
          (fun f => strBytes (f.name.getD "main") ++ strBytes f.content)
        = ((List.insertionSort fileLe r1.files).map (fun f => (f.name, f.content))).flatMap
            (fun p => strBytes (p.1.getD "main") ++ strBytes p.2) := h1.symm
      _ = ((List.insertionSort fileLe r2.files).map (fun f => (f.name, f.content))).flatMap
            (fun p => strBytes (p.1.getD "main") ++ strBytes p.2) := by rw [heqmap]
      _ = (List.insertionSort fileLe r2.files).flatMap
            (fun f => strBytes (f.name.getD "main") ++ strBytes f.content) := h2
  unfold calculate_job_hash
  simp only [hlang, hver, hflat]

/-- Witness for C9: the same two files listed in either order produce the
same cache key. -/
theorem cache_key_deterministic_witness :
    calculate_job_hash { baseRequest with files :=
        [{ name := some "a.txt", content := "A", encoding := none },
         { name := some "b.txt", content := "B", encoding := none }] } "cc" =
      calculate_job_hash { baseRequest with files :=
        [{ name := some "b.txt", content := "B", encoding := none },
         { name := some "a.txt", content := "A", encoding := none }] } "cc" :=
  cache_key_deterministic _ _ "cc" rfl rfl (by decide) (by decide)

theorem charListLtB_trichot : ∀ as bs : List Char,
    charListLtB as bs = true ∨ charListLtB bs as = true ∨ as = bs := by
  intro as
  induction as with
  | nil => intro bs; cases bs with
    | nil => right; right; rfl
    | cons b bs => left; rfl
  | cons a as ih =>
    intro bs
    cases bs with
    | nil => right; left; rfl
    | cons b bs =>
      by_cases h1 : a.toNat < b.toNat
      · left; simp [charListLtB, h1]
      · by_cases h2 : b.toNat < a.toNat
        · right; left; simp [charListLtB, h2]
        · have hab : a = b := by
            apply Char.ext
            apply UInt32.ext
            simp only [Char.toNat] at h1 h2
            omega
          subst hab
          rcases ih bs with h | h | h
          · left; simp [charListLtB, h]
          · right; left; simp [charListLtB, h]
          · right; right; rw [h]

theorem charListLtB_trans : ∀ as bs cs : List Char,
    charListLtB as bs = true → charListLtB bs cs = true → charListLtB as cs = true := by
  intro as
  induction as with
  | nil =>
    intro bs cs h1 h2
    cases bs with
    | nil => exact absurd h1 (by simp [charListLtB])
    | cons b bs =>
      cases cs with
      | nil => exact absurd h2 (by simp [charListLtB])
      | cons c cs => rfl
  | cons a as ih =>
    intro bs cs h1 h2
    cases bs with
    | nil => exact absurd h1 (by simp [charListLtB])
    | cons b bs =>
      cases cs with
      | nil => exact absurd h2 (by simp [charListLtB])
      | cons c cs =>
        simp only [charListLtB] at h1 h2 ⊢
        split_ifs at h1 h2 ⊢
        all_goals try rfl
        all_goals try exact ih bs cs h1 h2
        all_goals exfalso
        all_goals omega

theorem listCmpM_swap {α : Type} (cmp : α → α → Ordering) [Batteries.OrientedCmp cmp] :
    ∀ as bs : List α, (listCmpM cmp as bs).swap = listCmpM cmp bs as := by
  intro as
  induction as with
  | nil => intro bs; cases bs <;> rfl
  | cons a as ih =>
    intro bs
    cases bs with
    | nil => rfl
    | cons b bs =>
      show ((cmp a b).then (listCmpM cmp as bs)).swap = (cmp b a).then (listCmpM cmp bs as)
      rw [Ordering.swap_then, Batteries.OrientedCmp.symm, ih]

instance {α : Type} (cmp : α → α → Ordering) [Batteries.OrientedCmp cmp] :
    Batteries.OrientedCmp (listCmpM cmp) where
  symm as bs := listCmpM_swap cmp as bs

theorem listCmpM_le_trans {α : Type} (cmp : α → α → Ordering) [Batteries.TransCmp cmp] :
    ∀ as bs cs : List α, listCmpM cmp as bs ≠ Ordering.gt →
      listCmpM cmp bs cs ≠ Ordering.gt → listCmpM cmp as cs ≠ Ordering.gt := by
  intro as
  induction as with
  | nil =>
    intro bs cs h1 h2
    cases cs with
    | nil => simp [listCmpM]
    | cons c cs => simp [listCmpM]
  | cons a as ih =>
    intro bs cs h1 h2
    cases bs with
    | nil => exact absurd rfl h1
    | cons b bs =>
      cases cs with
      | nil => exact absurd rfl h2
      | cons c cs =>
        simp only [listCmpM, ne_eq, Ordering.then_eq_gt, not_or, not_and] at h1 h2 ⊢
        obtain ⟨h1h, h1t⟩ := h1
        obtain ⟨h2h, h2t⟩ := h2
        refine ⟨Batteries.TransCmp.le_trans h1h h2h, fun hac => ?_⟩
        have hab : cmp a b = Ordering.eq := by
          cases e : cmp a b with
          | lt =>
            have hlt : cmp a c = Ordering.lt := Batteries.TransCmp.lt_le_trans e h2h
            rw [hac] at hlt
            exact absurd hlt (by decide)
          | eq => rfl
          | gt => exact absurd e h1h
        have hbc : cmp b c = Ordering.eq :=
          (Batteries.TransCmp.cmp_congr_left hab).symm.trans hac
        exact ih bs cs (h1t hab) (h2t hbc)

instance {α : Type} (cmp : α → α → Ordering) [Batteries.TransCmp cmp] :
    Batteries.TransCmp (listCmpM cmp) where
  le_trans h1 h2 := listCmpM_le_trans cmp _ _ _ h1 h2

instance : Batteries.TransCmp charCmpM :=
  inferInstanceAs (Batteries.TransCmp (Ordering.byKey Char.toNat compare))

instance : Batteries.TransCmp charListCmp :=
  inferInstanceAs (Batteries.TransCmp (listCmpM charCmpM))

instance : Batteries.TransCmp numPreKeyCmp :=
  inferInstanceAs (Batteries.TransCmp
    (compareLex (Ordering.byKey List.length compare) charListCmp))

instance : Batteries.TransCmp numBuildKeyCmp :=
  inferInstanceAs (Batteries.TransCmp (compareLex
    (Ordering.byKey (fun l => (trimZeros l).length) compare)
    (compareLex (Ordering.byKey trimZeros charListCmp) (Ordering.byKey List.length compare))))

theorem mixedIdentCmp_swap (numCmp strCmp : List Char → List Char → Ordering)
    [Batteries.OrientedCmp numCmp] [Batteries.OrientedCmp strCmp] (a b : List Char) :
    (mixedIdentCmp numCmp strCmp a b).swap = mixedIdentCmp numCmp strCmp b a := by
  unfold mixedIdentCmp
  cases ha : a.all isAsciiDigit <;> cases hb : b.all isAsciiDigit
  · show (strCmp a b).swap = strCmp b a
    exact Batteries.OrientedCmp.symm a b
  · rfl
  · rfl
  · show (numCmp a b).swap = numCmp b a
    exact Batteries.OrientedCmp.symm a b

instance (numCmp strCmp : List Char → List Char → Ordering)
    [Batteries.OrientedCmp numCmp] [Batteries.OrientedCmp strCmp] :
    Batteries.OrientedCmp (mixedIdentCmp numCmp strCmp) where
  symm a b := mixedIdentCmp_swap numCmp strCmp a b

theorem mixedIdentCmp_le_trans (numCmp strCmp : List Char → List Char → Ordering)
    [Batteries.TransCmp numCmp] [Batteries.TransCmp strCmp] (a b c : List Char)
    (h1 : mixedIdentCmp numCmp strCmp a b ≠ Ordering.gt)
    (h2 : mixedIdentCmp numCmp strCmp b c ≠ Ordering.gt) :
    mixedIdentCmp numCmp strCmp a c ≠ Ordering.gt := by
  unfold mixedIdentCmp at h1 h2 ⊢
  cases ha : a.all isAsciiDigit <;> cases hb : b.all isAsciiDigit <;>
    cases hc : c.all isAsciiDigit <;> rw [ha, hb] at h1 <;> rw [hb, hc] at h2
  all_goals first
    | exact absurd rfl h1
    | exact absurd rfl h2
    | exact fun hgt => Ordering.noConfusion hgt
    | exact (show strCmp a c ≠ Ordering.gt from
        Batteries.TransCmp.le_trans (show strCmp a b ≠ Ordering.gt from h1)
          (show strCmp b c ≠ Ordering.gt from h2))
    | exact (show numCmp a c ≠ Ordering.gt from
        Batteries.TransCmp.le_trans (show numCmp a b ≠ Ordering.gt from h1)
          (show numCmp b c ≠ Ordering.gt from h2))

instance (numCmp strCmp : List Char → List Char → Ordering)
    [Batteries.TransCmp numCmp] [Batteries.TransCmp strCmp] :
    Batteries.TransCmp (mixedIdentCmp numCmp strCmp) where
  le_trans h1 h2 := mixedIdentCmp_le_trans numCmp strCmp _ _ _ h1 h2

instance : Batteries.TransCmp preIdentCmp :=
  inferInstanceAs (Batteries.TransCmp (mixedIdentCmp numPreKeyCmp charListCmp))

instance : Batteries.TransCmp buildIdentCmp :=
  inferInstanceAs (Batteries.TransCmp (mixedIdentCmp numBuildKeyCmp charListCmp))

theorem preCmp_swap (a b : String) : (preCmp a b).swap = preCmp b a := by
  unfold preCmp
  cases ha : a.isEmpty <;> cases hb : b.isEmpty
  · show (listCmpM preIdentCmp (splitDots a) (splitDots b)).swap = _
    exact Batteries.OrientedCmp.symm (splitDots a) (splitDots b)
  · rfl
  · rfl
  · rfl

instance : Batteries.OrientedCmp preCmp where
  symm a b := preCmp_swap a b

theorem preCmp_le_trans (a b c : String) (h1 : preCmp a b ≠ Ordering.gt)
    (h2 : preCmp b c ≠ Ordering.gt) : preCmp a c ≠ Ordering.gt := by
  unfold preCmp at h1 h2 ⊢
  cases ha : a.isEmpty <;> cases hb : b.isEmpty <;> cases hc : c.isEmpty <;>
    rw [ha, hb] at h1 <;> rw [hb, hc] at h2
  all_goals first
    | exact absurd rfl h1
    | exact absurd rfl h2
    | exact fun hgt => Ordering.noConfusion hgt
    | exact (show listCmpM preIdentCmp (splitDots a) (splitDots c) ≠ Ordering.gt from
        Batteries.TransCmp.le_trans
          (show listCmpM preIdentCmp (splitDots a) (splitDots b) ≠ Ordering.gt from h1)
          (show listCmpM preIdentCmp (splitDots b) (splitDots c) ≠ Ordering.gt from h2))

instance : Batteries.TransCmp preCmp where
  le_trans h1 h2 := preCmp_le_trans _ _ _ h1 h2

instance : Batteries.TransCmp buildCmp :=
  inferInstanceAs (Batteries.TransCmp (Ordering.byKey splitDots (listCmpM buildIdentCmp)))

instance : Batteries.TransCmp semverCmp :=
  inferInstanceAs (Batteries.TransCmp (compareLex (Ordering.byKey SemVerM.major compare)
    (compareLex (Ordering.byKey SemVerM.minor compare)
      (compareLex (Ordering.byKey SemVerM.patch compare)
        (compareLex (Ordering.byKey SemVerM.pre preCmp)
          (Ordering.byKey SemVerM.build buildCmp))))))

theorem semverLeP_refl (a : SemVerM) : semverLeP a a := by
  have h : semverCmp a a = Ordering.eq := Batteries.OrientedCmp.cmp_refl
  unfold semverLeP
  rw [h]
  exact fun hx => Ordering.noConfusion hx

instance : IsTotal SemVerM semverLeP where
  total a b := by
    unfold semverLeP
    cases h : semverCmp a b with
    | lt => exact Or.inl (fun hx => Ordering.noConfusion hx)
    | eq => exact Or.inl (fun hx => Ordering.noConfusion hx)
    | gt =>
      refine Or.inr ?_
      have hba : semverCmp b a = Ordering.lt := Batteries.OrientedCmp.cmp_eq_gt.mp h
      rw [hba]
      exact fun hx => Ordering.noConfusion hx

instance : IsTrans SemVerM semverLeP where
  trans a b c h1 h2 := Batteries.TransCmp.le_trans h1 h2

instance : IsTotal (String × String) pairLe where
  total a b := by
    unfold pairLe
    rcases charListLtB_trichot a.1.data b.1.data with h | h | h
    · left; left; exact h
    · right; left; exact h
    · have heq : a.1 = b.1 := by
        cases a1 : a.1
        cases b1 : b.1
        rw [a1, b1] at h
        simp only [strLtB] at h
        exact congrArg String.mk (by simpa using h)
      rcases IsTotal.total (r := semverLeP) (verKey a.2) (verKey b.2) with hv | hv
      · left; right; exact ⟨heq, hv⟩
      · right; right; exact ⟨heq.symm, hv⟩

instance : IsTrans (String × String) pairLe where
  trans a b c hab hbc := by
    unfold pairLe at *
    rcases hab with hab | ⟨hab, hav⟩
    · rcases hbc with hbc | ⟨hbc, hbv⟩
      · left; exact charListLtB_trans _ _ _ hab hbc
      · left; rw [← hbc]; exact hab
    · rcases hbc with hbc | ⟨hbc, hbv⟩
      · left; rw [hab]; exact hbc
      · right
        exact ⟨hab.trans hbc, IsTrans.trans (r := semverLeP) _ _ _ hav hbv⟩

/-- C7 counterexample: two versions of one package come back in ascending
version order, violating the claimed `(name asc, version desc)` order. -/
theorem list_all_version_order_cex :
    list_all (some [{ name := "python", isDir := true,
                      children := [("1.0.0", true), ("2.0.0", true)] }]) =
      [("python", "1.0.0"), ("python", "2.0.0")] ∧
    ¬ specSortedNameAscVerDesc [("python", "1.0.0"), ("python", "2.0.0")] := by
  constructor
  · decide
  · decide

/-- C7 (amended): `list_all` returns exactly the semver-parseable version
directories of the package directories, sorted by name ascending and,
within equal names, by parsed version ascending. -/
theorem list_all_sorted_name_asc_ver_asc (rootEntries : List RootEntry) :
    (list_all (some rootEntries)).Perm (collectPackages rootEntries) ∧
    List.Sorted pairLe (list_all (some rootEntries)) ∧
    list_all none = [] :=
  ⟨List.perm_insertionSort _ _, List.sorted_insertionSort _ _, rfl⟩

/-- `list_all` keeps pre-release version directories (they parse as
semver) and sorts them below the corresponding release. -/
theorem list_all_prerelease_demo :
    list_all (some [{ name := "python", isDir := true,
                      children := [("1.0.0", true), ("1.0.0-alpha", true)] }]) =
      [("python", "1.0.0-alpha"), ("python", "1.0.0")] := by
  decide

theorem digitVal_lt_ten (c : Char) (h : isAsciiDigit c = true) : digitVal c < 10 := by
  unfold isAsciiDigit at h
  unfold digitVal
  simp only [Bool.and_eq_true, decide_eq_true_eq] at h
  omega

theorem digitChar_digitVal (c : Char) (h : isAsciiDigit c = true) :
    Nat.digitChar (digitVal c) = c := by
  unfold isAsciiDigit at h
  simp only [Bool.and_eq_true, decide_eq_true_eq] at h
  have hb : digitVal c < 10 := by unfold digitVal; omega
  have hv : digitVal c + 48 = c.toNat := by unfold digitVal; omega
  interval_cases hdv : (digitVal c) <;>
    exact Eq.symm (Char.ext (UInt32.ext hv.symm))

theorem natValAux_eq_ofDigits (cs : List Char) : ∀ acc : Nat,
    natValAux cs acc = acc * 10 ^ cs.length + Nat.ofDigits 10 (cs.map digitVal).reverse := by
  induction cs with
  | nil => intro acc; simp [natValAux]
  | cons c cs ih =>
    intro acc
    simp only [natValAux, List.map_cons, List.reverse_cons, List.length_cons, ih,
      Nat.ofDigits_append, Nat.ofDigits_singleton, List.length_reverse, List.length_map]
    ring

theorem natDigitsRevF_eq (fuel : Nat) : ∀ n : Nat, n ≤ fuel →
    natDigitsRevF fuel n = (Nat.digits 10 n).map Nat.digitChar := by
  induction fuel with
  | zero =>
    intro n hn
    have : n = 0 := Nat.le_zero.mp hn
    subst this
    simp [natDigitsRevF]
  | succ fuel ih =>
    intro n hn
    cases n with
    | zero => simp [natDigitsRevF]
    | succ m =>
      have hdiv : (m + 1) / 10 ≤ fuel := by
        have := Nat.div_lt_self (Nat.succ_pos m) (show 1 < 10 by omega)
        omega
      rw [show natDigitsRevF (fuel + 1) (m + 1) =
        Nat.digitChar ((m + 1) % 10) :: natDigitsRevF fuel ((m + 1) / 10) from rfl]
      rw [ih _ hdiv, Nat.digits_def' (show 1 < 10 by omega) (Nat.succ_pos m)]
      simp

theorem natDigitsRev_eq (n : Nat) : natDigitsRev n = (Nat.digits 10 n).map Nat.digitChar :=
  natDigitsRevF_eq n n (le_refl n)

theorem semverNumValid_parts (cs : List Char) (h : semverNumValid cs = true) :
    cs ≠ [] ∧ (∀ c ∈ cs, isAsciiDigit c = true) ∧
      (cs ≠ ['0'] → ∀ c, cs.head? = some c → digitVal c ≠ 0) := by
  unfold semverNumValid at h
  simp only [Bool.and_eq_true, Bool.not_eq_true', List.all_eq_true, Bool.or_eq_true,
    beq_iff_eq, decide_eq_true_eq] at h
  obtain ⟨⟨⟨hne, hall⟩, hlead⟩, _⟩ := h
  refine ⟨?_, hall, ?_⟩
  · intro hnil
    rw [hnil] at hne
    simp at hne
  · intro hne0 c hc hdv
    have hcdigit : isAsciiDigit c = true := hall c (List.mem_of_mem_head? hc)
    have hc0 : c = '0' := by
      unfold isAsciiDigit at hcdigit
      unfold digitVal at hdv
      simp only [Bool.and_eq_true, decide_eq_true_eq, Char.toNat] at hcdigit hdv
      exact Char.ext (UInt32.ext (show c.val.toNat = 48 by omega))
    rcases hlead with hl | hl
    · cases cs with
      | nil => simp at hc
      | cons a t =>
        have ht : t = [] := by
          simp only [List.length_cons] at hl
          exact List.eq_nil_of_length_eq_zero (by omega)
        subst ht
        simp only [List.head?_cons, Option.some.injEq] at hc
        exact hne0 (by rw [hc, hc0])
    · rw [hc, hc0] at hl
      simp at hl

theorem natReprM_natValAux (cs : List Char) (h : semverNumValid cs = true) :
    natReprM (natValAux cs 0) = String.mk cs := by
  obtain ⟨hne, hall, hlead⟩ := semverNumValid_parts cs h
  by_cases h0 : cs = ['0']
  · subst h0
    rfl
  · have hval : natValAux cs 0 = Nat.ofDigits 10 (cs.map digitVal).reverse := by
      have hx := natValAux_eq_ofDigits cs 0
      simpa using hx
    have hlt : ∀ l ∈ (cs.map digitVal).reverse, l < 10 := by
      intro l hl
      simp only [List.mem_reverse, List.mem_map] at hl
      obtain ⟨c, hc, rfl⟩ := hl
      exact digitVal_lt_ten c (hall c hc)
    have hlast : ∀ (hL : (cs.map digitVal).reverse ≠ []),
        ((cs.map digitVal).reverse).getLast hL ≠ 0 := by
      intro hL
      cases cs with
      | nil => exact absurd rfl hne
      | cons a t =>
        have hsplit : ((a :: t).map digitVal).reverse = (t.map digitVal).reverse ++ [digitVal a] := by
          simp
        rw [List.getLast_congr _ _ hsplit, List.getLast_concat]
        exact hlead h0 a rfl
    have hdig : Nat.digits 10 (natValAux cs 0) = (cs.map digitVal).reverse := by
      rw [hval]
      exact Nat.digits_ofDigits 10 (by omega) _ hlt hlast
    have hpos : ¬ natValAux cs 0 = 0 := by
      intro hzero
      rw [hzero] at hdig
      simp only [Nat.digits_zero] at hdig
      have : cs.map digitVal = [] := by
        have hx := congrArg List.reverse hdig
        simpa using hx
      exact hne (List.map_eq_nil_iff.mp this)
    unfold natReprM
    rw [if_neg hpos, natDigitsRev_eq, hdig]
    have hstep : ((cs.map digitVal).reverse).map Nat.digitChar =
        (cs.map (fun c => Nat.digitChar (digitVal c))).reverse := by
      rw [List.map_reverse, List.map_map]
      rfl
    rw [hstep, List.reverse_reverse]
    have hid : cs.map (fun c => Nat.digitChar (digitVal c)) = cs := by
      have hx : ∀ c ∈ cs, Nat.digitChar (digitVal c) = c :=
        fun c hc => digitChar_digitVal c (hall c hc)
      calc cs.map (fun c => Nat.digitChar (digitVal c)) = cs.map id := List.map_congr_left hx
        _ = cs := List.map_id cs
    rw [hid]

theorem preValid_nil : preValid [] = false := rfl

theorem buildValid_nil : buildValid [] = false := rfl

theorem dropWhile_head_false {α : Type} (p : α → Bool) :
    ∀ (l : List α) (x : α) (xs : List α), l.dropWhile p = x :: xs → p x = false := by
  intro l
  induction l with
  | nil => intro x xs h; exact absurd h (by simp)
  | cons a t ih =>
    intro x xs h
    rw [List.dropWhile_cons] at h
    split_ifs at h with hp
    · exact ih x xs h
    · injection h with h1 h2
      rw [← h1]
      cases hv : p a
      · rfl
      · exact absurd hv hp

theorem parseSuffix_shape (rest pre build : List Char)
    (h : parseSuffix rest = some (pre, build)) :
    rest = (if pre.isEmpty then [] else '-' :: pre) ++
      (if build.isEmpty then [] else '+' :: build) := by
  cases rest with
  | nil =>
    simp only [parseSuffix, Option.some.injEq, Prod.mk.injEq] at h
    obtain ⟨h1, h2⟩ := h
    subst h1
    subst h2
    rfl
  | cons c r =>
    simp only [parseSuffix] at h
    by_cases hdash : c = '-'
    · rw [if_pos hdash] at h
      subst hdash
      cases hd : r.dropWhile (fun x => !(x == '+')) with
      | nil =>
        rw [hd] at h
        dsimp only at h
        split_ifs at h with hpv
        · simp only [Option.some.injEq, Prod.mk.injEq] at h
          obtain ⟨h1, h2⟩ := h
          subst h1
          subst h2
          have hne : ¬ ((r.takeWhile (fun x => !(x == '+'))).isEmpty = true) := by
            intro hv
            rw [List.isEmpty_iff.mp hv] at hpv
            rw [preValid_nil] at hpv
            exact Bool.false_ne_true hpv
          rw [if_neg hne, if_pos (show ([] : List Char).isEmpty = true from rfl),
            List.append_nil]
          have hr : r.takeWhile (fun x => !(x == '+')) = r := by
            conv_rhs => rw [← List.takeWhile_append_dropWhile (fun x => !(x == '+')) r]
            rw [hd, List.append_nil]
          rw [hr]
      | cons x b0 =>
        rw [hd] at h
        dsimp only at h
        split_ifs at h with hv
        · simp only [Bool.and_eq_true] at hv
          obtain ⟨hpv, hbv⟩ := hv
          simp only [Option.some.injEq, Prod.mk.injEq] at h
          obtain ⟨h1, h2⟩ := h
          subst h1
          subst h2
          have hxp : (!(x == '+')) = false :=
            dropWhile_head_false (fun y => !(y == '+')) r x b0 hd
          have hx : x = '+' := by
            cases hxe : x == '+'
            · rw [hxe] at hxp
              exact absurd hxp (by decide)
            · exact beq_iff_eq.mp hxe
          subst hx
          have hne1 : ¬ ((r.takeWhile (fun x => !(x == '+'))).isEmpty = true) := by
            intro hv2
            rw [List.isEmpty_iff.mp hv2] at hpv
            rw [preValid_nil] at hpv
            exact Bool.false_ne_true hpv
          have hne2 : ¬ (b0.isEmpty = true) := by
            intro hv2
            rw [List.isEmpty_iff.mp hv2] at hbv
            rw [buildValid_nil] at hbv
            exact Bool.false_ne_true hbv
          rw [if_neg hne1, if_neg hne2, List.cons_append]
          refine congrArg (List.cons '-') ?_
          conv_lhs => rw [← List.takeWhile_append_dropWhile (fun x => !(x == '+')) r]
          rw [hd]
    · rw [if_neg hdash] at h
      by_cases hplus : c = '+'
      · rw [if_pos hplus] at h
        subst hplus
        split_ifs at h with hbv
        · simp only [Option.some.injEq, Prod.mk.injEq] at h
          obtain ⟨h1, h2⟩ := h
          subst h1
          subst h2
          have hne2 : ¬ (r.isEmpty = true) := by
            intro hv2
            rw [List.isEmpty_iff.mp hv2] at hbv
            rw [buildValid_nil] at hbv
            exact Bool.false_ne_true hbv
          rw [if_pos (show ([] : List Char).isEmpty = true from rfl), if_neg hne2]
          rfl
      · rw [if_neg hplus] at h
        exact absurd h (by simp)

theorem verToString_parseSemverChars (cs : List Char) (v : SemVerM)
    (h : parseSemverChars cs = some v) : verToString v = String.mk cs := by
  unfold parseSemverChars at h
  split at h
  case h_2 => exact absurd h (by simp)
  case h_1 r1 heq1 =>
  split at h
  case h_2 => exact absurd h (by simp)
  case h_1 r2 heq2 =>
  dsimp only at h
  split_ifs at h with hcond
  · simp only [Bool.and_eq_true] at hcond
    obtain ⟨⟨hv1, hv2⟩, hv3⟩ := hcond
    cases hps : parseSuffix (r2.dropWhile isAsciiDigit) with
    | none => rw [hps] at h; exact absurd h (by simp)
    | some pb =>
      obtain ⟨pre0, build0⟩ := pb
      rw [hps] at h
      simp only [Option.some.injEq] at h
      subst h
      have hcs : cs = cs.takeWhile isAsciiDigit ++ '.' :: r1 := by
        conv_lhs => rw [← List.takeWhile_append_dropWhile isAsciiDigit cs]
        rw [heq1]
      have hr1 : r1 = r1.takeWhile isAsciiDigit ++ '.' :: r2 := by
        conv_lhs => rw [← List.takeWhile_append_dropWhile isAsciiDigit r1]
        rw [heq2]
      have hr2 : r2 = r2.takeWhile isAsciiDigit ++ r2.dropWhile isAsciiDigit :=
        (List.takeWhile_append_dropWhile isAsciiDigit r2).symm
      have hrest := parseSuffix_shape _ _ _ hps
      have hpredata : (if String.mk pre0 = "" then "" else "-" ++ String.mk pre0).data
          = (if pre0.isEmpty then [] else '-' :: pre0) := by
        cases pre0
        · rfl
        · rfl
      have hbuilddata : (if String.mk build0 = "" then "" else "+" ++ String.mk build0).data
          = (if build0.isEmpty then [] else '+' :: build0) := by
        cases build0
        · rfl
        · rfl
      have hdata : (verToString
          { major := natValAux (cs.takeWhile isAsciiDigit) 0
            minor := natValAux (r1.takeWhile isAsciiDigit) 0
            patch := natValAux (r2.takeWhile isAsciiDigit) 0
            pre := String.mk pre0
            build := String.mk build0 }).data = cs := by
        unfold verToString
        dsimp only
        rw [String.data_append, String.data_append, String.data_append,
          String.data_append, String.data_append, String.data_append]
        rw [natReprM_natValAux _ hv1, natReprM_natValAux _ hv2, natReprM_natValAux _ hv3,
          hpredata, hbuilddata]
        show cs.takeWhile isAsciiDigit ++ ['.'] ++ r1.takeWhile isAsciiDigit ++ ['.'] ++
          r2.takeWhile isAsciiDigit ++ (if pre0.isEmpty then [] else '-' :: pre0) ++
          (if build0.isEmpty then [] else '+' :: build0) = cs
        conv_rhs => rw [hcs, hr1, hr2, hrest]
        simp
      rw [← strMk_data (verToString _), hdata]

theorem mem_of_getLast?_eq {α : Type} (l : List α) (m : α) (hm : l.getLast? = some m) :
    m ∈ l := by
  obtain ⟨h, hx⟩ := List.mem_getLast?_eq_getLast (x := m) (l := l) (Option.mem_def.mpr hm)
  rw [hx]
  exact List.getLast_mem h

theorem sorted_getLast?_max (l : List SemVerM) (hs : List.Sorted semverLeP l)
    (m : SemVerM) (hm : l.getLast? = some m) : ∀ x ∈ l, semverLeP x m := by
  induction l with
  | nil => simp at hm
  | cons a t ih =>
    cases t with
    | nil =>
      simp only [List.getLast?_singleton, Option.some.injEq] at hm
      subst hm
      intro x hx
      simp only [List.mem_singleton] at hx
      subst hx
      exact semverLeP_refl x
    | cons b t2 =>
      rw [List.getLast?_cons_cons] at hm
      intro x hx
      rcases List.mem_cons.mp hx with rfl | hx2
      · exact (List.sorted_cons.mp hs).1 m (mem_of_getLast?_eq _ _ hm)
      · exact ih (List.sorted_cons.mp hs).2 hm x hx2

theorem find_latest_version_spec (entries : List (String × Bool))
    (hne : entries.filterMap (fun e => if e.2 then parseSemver e.1 else none) ≠ []) :
    ∃ s0 vmax, (s0, true) ∈ entries ∧ parseSemver s0 = some vmax ∧
      find_latest_version entries = Except.ok s0 ∧
      ∀ v ∈ entries.filterMap (fun e => if e.2 then parseSemver e.1 else none),
        semverLeP v vmax := by
  have hperm := List.perm_insertionSort semverLeP
    (entries.filterMap (fun e => if e.2 then parseSemver e.1 else none))
  have hsortne : List.insertionSort semverLeP
      (entries.filterMap (fun e => if e.2 then parseSemver e.1 else none)) ≠ [] := by
    intro hnil
    rw [hnil] at hperm
    exact hne (hperm.symm.eq_nil)
  cases hm : (List.insertionSort semverLeP
      (entries.filterMap (fun e => if e.2 then parseSemver e.1 else none))).getLast? with
  | none => exact absurd (List.getLast?_eq_none_iff.mp hm) hsortne
  | some vmax =>
  have hmemv : vmax ∈ entries.filterMap (fun e => if e.2 then parseSemver e.1 else none) :=
    hperm.mem_iff.mp (mem_of_getLast?_eq _ _ hm)
  obtain ⟨e, he, hee⟩ := List.mem_filterMap.mp hmemv
  have he2 : e.2 = true := by
    cases h2 : e.2 with
    | false => rw [h2] at hee; simp at hee
    | true => rfl
  have hparse : parseSemver e.1 = some vmax := by
    rw [he2] at hee
    simpa using hee
  refine ⟨e.1, vmax, ?_, hparse, ?_, ?_⟩
  · have : e = (e.1, true) := by
      rw [← he2]
    exact this ▸ he
  · unfold find_latest_version
    rw [if_neg (by simpa using hne), hm]
    have hvs : verToString vmax = e.1 := by
      rw [verToString_parseSemverChars e.1.data vmax hparse, strMk_data]
    exact congrArg Except.ok hvs
  · intro v hv
    exact sorted_getLast?_max _ (List.sorted_insertionSort semverLeP _) vmax hm v
      (hperm.mem_iff.mpr hv)

/-- C4 counterexample: with an explicit version `"latest"`, `resolve` does
not enumerate versions — it looks up a literal directory named `latest`
and fails, even though valid semver directories exist (and the
version-absent call does return the greatest, `2.0.0`). -/
theorem resolve_latest_literal_cex :
    resolve true [("1.0.0", true), ("2.0.0", true)] (some "latest") =
      Except.error "Version latest of package not found" ∧
    resolve true [("1.0.0", true), ("2.0.0", true)] none = Except.ok "2.0.0" := by
  constructor
  · rfl
  · rfl

/-- C4 (amended): `resolve` with the version absent enumerates the package
directory, discards entries that do not parse as semver triples, and
returns the entry carrying the numerically greatest version; it fails with
a not-found error when the package directory is missing or no valid
versions exist.  An explicit version string (the literal `"latest"`
included) is used as a literal directory name and fails when absent. -/
theorem resolve_spec (entries : List (String × Bool)) :
    (∀ version, resolve false entries version = Except.error "Package not found in repository") ∧
    (entries.filterMap (fun e => if e.2 then parseSemver e.1 else none) = [] →
      resolve true entries none = Except.error "No valid versions found for package") ∧
    (entries.filterMap (fun e => if e.2 then parseSemver e.1 else none) ≠ [] →
      ∃ s0 vmax, (s0, true) ∈ entries ∧ parseSemver s0 = some vmax ∧
        resolve true entries none = Except.ok s0 ∧
        ∀ v ∈ entries.filterMap (fun e => if e.2 then parseSemver e.1 else none),
          semverLeP v vmax) ∧
    (∀ v, entries.any (fun e => e.1 == v) = false →
      resolve true entries (some v) = Except.error ("Version " ++ v ++ " of package not found")) := by
  refine ⟨fun version => rfl, ?_, ?_, ?_⟩
  · intro hnil
    unfold resolve find_latest_version
    rw [if_neg (by simp)]
    rw [if_pos (by simpa using hnil)]
  · intro hne
    obtain ⟨s0, vmax, hmem, hparse, hlatest, hmax⟩ := find_latest_version_spec entries hne
    refine ⟨s0, vmax, hmem, hparse, ?_, hmax⟩
    unfold resolve
    rw [if_neg (by simp), hlatest]
    have hanyt : (entries.any fun e => e.1 == s0) = true :=
      List.any_eq_true.mpr ⟨(s0, true), hmem, by simp⟩
    dsimp only
    rw [if_pos hanyt]
  · intro v hany
    unfold resolve
    rw [if_neg (by simp)]
    dsimp only
    rw [if_neg (by simp [hany])]

/-- Witness for C4 (amended) on concrete directory listings. -/
theorem resolve_spec_witness :
    (resolve true [("foo", true)] none = Except.error "No valid versions found for package") ∧
    (∃ s0 vmax, (s0, true) ∈ [("1.0.0", true), ("foo", true)] ∧ parseSemver s0 = some vmax ∧
      resolve true [("1.0.0", true), ("foo", true)] none = Except.ok s0 ∧
      ∀ v ∈ ([("1.0.0", true), ("foo", true)] : List (String × Bool)).filterMap
        (fun e => if e.2 then parseSemver e.1 else none), semverLeP v vmax) ∧
    (resolve true [("1.0.0", true)] (some "9.9.9") =
      Except.error ("Version " ++ "9.9.9" ++ " of package not found")) :=
  ⟨(resolve_spec [("foo", true)]).2.1 (by decide),
   (resolve_spec [("1.0.0", true), ("foo", true)]).2.2.1 (by decide),
   (resolve_spec [("1.0.0", true)]).2.2.2 "9.9.9" (by decide)⟩

/-- Pre-release directories are parsed, not dropped: with directories
`1.0.0` and `1.0.1-alpha` the version-absent `resolve` picks
`1.0.1-alpha`, the greater version in semver precedence order. -/
theorem resolve_prerelease_demo :
    resolve true [("1.0.0", true), ("1.0.1-alpha", true)] none =
      Except.ok "1.0.1-alpha" := by
  rfl

/-- A pre-release precedes its release: with directories `1.0.0-alpha`
and `1.0.0`, the version-absent `resolve` picks `1.0.0`. -/
theorem resolve_prerelease_order_demo :
    resolve true [("1.0.0-alpha", true), ("1.0.0", true)] none =
      Except.ok "1.0.0" := by
  rfl
